import Mathlib

/-!
Shallow embedding of `ocean_tools/gravity_waves.py`: closed-form formulas for
linear internal gravity waves in a stratified rotating fluid.  Real-valued
quantities are embedded as `ℝ`, complex amplitudes as `ℂ`; numpy's `1j` is
`Complex.I`, `np.sqrt` is `Real.sqrt`, `np.arcsin` is `Real.arcsin`,
`np.exp` on complex values is `Complex.exp`, `np.real` is `Complex.re`,
float `**` with fractional exponent is real `rpow`, and `np.arctan2 (l, k)`
is the argument of the complex number `k + l*I`.  Position stacks of shape
(P, 3) are `Matrix (Fin P) (Fin 3) ℝ`; `np.vstack` of three rows is a
`![·,·,·]` matrix and `.T` is `Matrix.transpose`.  Python keyword defaults
are dropped: every argument is passed explicitly, in the source order.
-/

namespace OceanTools.GravityWaves

open Real Complex

/-- `omega(N, k, m, l=0., f=0.)`: dispersion relation for an internal gravity
wave, `np.sqrt((f2*m2 + N2*(k2 + l2))/(k2 + l2 + m2))` where `X2 = X**2`. -/
noncomputable def omega (N k m l f : ℝ) : ℝ :=
  Real.sqrt ((f^2*m^2 + N^2*(k^2 + l^2))/(k^2 + l^2 + m^2))

/-- IEEE-754 view of `omega`: numpy does not raise on the singular input but
returns NaN, because the denominator `k2 + l2 + m2 = 0` forces the numerator
to `0` as well and float `0/0` is NaN, propagated through `np.sqrt`.  `none`
stands for that NaN outcome; otherwise the value agrees with `omega`. -/
noncomputable def omegaNaN (N k m l f : ℝ) : Option ℝ :=
  if k^2 + l^2 + m^2 = 0 then none
  else some (omega N k m l f)

/-- `U_0(phi_0, k, l, om, f)`: zonal velocity amplitude
`((k*om + 1j*l*f)/(om**2 - f**2))*phi_0`. -/
noncomputable def U_0 (phi_0 : ℂ) (k l om f : ℝ) : ℂ :=
  ((k*om + Complex.I*l*f)/((om:ℂ)^2 - (f:ℂ)^2))*phi_0

/-- `V_0(phi_0, k, l, om, f)`: meridional velocity amplitude
`((l*om - 1j*k*f)/(om**2 - f**2))*phi_0`. -/
noncomputable def V_0 (phi_0 : ℂ) (k l om f : ℝ) : ℂ :=
  ((l*om - Complex.I*k*f)/((om:ℂ)^2 - (f:ℂ)^2))*phi_0

/-- `W_0(phi_0, m, om, N)`: vertical velocity amplitude
`(-om*m/(N**2 - om**2))*phi_0`. -/
noncomputable def W_0 (phi_0 : ℂ) (m om N : ℝ) : ℂ :=
  (-(om:ℂ)*m/((N:ℂ)^2 - (om:ℂ)^2))*phi_0

/-- `B_0(phi_0, m, om, N)`: buoyancy perturbation amplitude
`(1j*m*N**2/(N**2 - om**2))*phi_0`. -/
noncomputable def B_0 (phi_0 : ℂ) (m om N : ℝ) : ℂ :=
  (Complex.I*m*(N:ℂ)^2/((N:ℂ)^2 - (om:ℂ)^2))*phi_0

/-- `ETA_0(phi_0, m, om, N)`: isopycnal displacement amplitude
`phi_0*1j*m/(N**2 - om**2)`. -/
noncomputable def ETA_0 (phi_0 : ℂ) (m om N : ℝ) : ℂ :=
  phi_0*Complex.I*m/((N:ℂ)^2 - (om:ℂ)^2)

/-- `RHO_0(phi_0, m, om, N, g=-9.81, rho_0=1000.)`: density perturbation
amplitude `-B_0(phi_0, m, om, N)*rho_0/g`. -/
noncomputable def RHO_0 (phi_0 : ℂ) (m om N g rho_0 : ℝ) : ℂ :=
  -B_0 phi_0 m om N*(rho_0:ℂ)/(g:ℂ)

/-- `wave_phase(x, y, z, t, k, l, m, om, U=0., V=0., W=0., phase_0=0.)`:
`1j*(k*x + l*y + m*z - (om + k*U + l*V + m*W)*t + phase_0)`. -/
noncomputable def wave_phase (x y z t k l m om U V W phase_0 : ℝ) : ℂ :=
  Complex.I*((k*x + l*y + m*z - (om + k*U + l*V + m*W)*t + phase_0 : ℝ) : ℂ)

/-- `phi(...)`: pressure perturbation, `np.real(phi_0*np.exp(phase))`. -/
noncomputable def phi (x y z t : ℝ) (phi_0 : ℂ) (k l m om U V W phase_0 : ℝ) : ℝ :=
  (phi_0*Complex.exp (wave_phase x y z t k l m om U V W phase_0)).re

/-- `u(...)`: zonal velocity perturbation,
`np.real(U_0(phi_0, k, l, om, f)*np.exp(phase))`. -/
noncomputable def u (x y z t : ℝ) (phi_0 : ℂ) (k l m om f U V W phase_0 : ℝ) : ℝ :=
  (U_0 phi_0 k l om f*Complex.exp (wave_phase x y z t k l m om U V W phase_0)).re

/-- `v(...)`: meridional velocity perturbation,
`np.real(V_0(phi_0, k, l, om, f)*np.exp(phase))`. -/
noncomputable def v (x y z t : ℝ) (phi_0 : ℂ) (k l m om f U V W phase_0 : ℝ) : ℝ :=
  (V_0 phi_0 k l om f*Complex.exp (wave_phase x y z t k l m om U V W phase_0)).re

/-- `w(...)`: vertical velocity perturbation,
`np.real(W_0(phi_0, m, om, N)*np.exp(phase))`. -/
noncomputable def w (x y z t : ℝ) (phi_0 : ℂ) (k l m om N U V W phase_0 : ℝ) : ℝ :=
  (W_0 phi_0 m om N*Complex.exp (wave_phase x y z t k l m om U V W phase_0)).re

/-- `b(...)`: buoyancy perturbation,
`np.real(B_0(phi_0, m, om, N)*np.exp(phase))`. -/
noncomputable def b (x y z t : ℝ) (phi_0 : ℂ) (k l m om N U V W phase_0 : ℝ) : ℝ :=
  (B_0 phi_0 m om N*Complex.exp (wave_phase x y z t k l m om U V W phase_0)).re

/-- `rho(...)`: density perturbation,
`np.real(RHO_0(phi_0, m, om, N, g, rho_0)*np.exp(phase))`. -/
noncomputable def rho (x y z t : ℝ) (phi_0 : ℂ)
    (k l m om N U V W phase_0 g rho_0 : ℝ) : ℝ :=
  (RHO_0 phi_0 m om N g rho_0*Complex.exp (wave_phase x y z t k l m om U V W phase_0)).re

/-- `eta(...)`: vertical displacement of isopycnals,
`np.real(ETA_0(phi_0, m, om, N)*np.exp(phase))`. -/
noncomputable def eta (x y z t : ℝ) (phi_0 : ℂ) (k l m om N U V W phase_0 : ℝ) : ℝ :=
  (ETA_0 phi_0 m om N*Complex.exp (wave_phase x y z t k l m om U V W phase_0)).re

/-- `wave_vel(r, t, phi_0, N, f, k, l, m, om, ...)`: takes a position stack
`r` (last axis is x, y, z), computes the three complex amplitudes and the
shared phase, and returns `np.vstack((u, v, w)).T`. -/
noncomputable def wave_vel {P : ℕ} (r : Matrix (Fin P) (Fin 3) ℝ) (t : ℝ)
    (phi_0 : ℂ) (N f k l m om U V W phase_0 : ℝ) : Matrix (Fin P) (Fin 3) ℝ :=
  let x : Fin P → ℝ := fun p => r p 0
  let y : Fin P → ℝ := fun p => r p 1
  let z : Fin P → ℝ := fun p => r p 2
  let u_amp := U_0 phi_0 k l om f
  let v_amp := V_0 phi_0 k l om f
  let w_amp := W_0 phi_0 m om N
  let phase : Fin P → ℂ := fun p =>
    wave_phase (x p) (y p) (z p) t k l m om U V W phase_0
  let uarr : Fin P → ℝ := fun p => (u_amp*Complex.exp (phase p)).re
  let varr : Fin P → ℝ := fun p => (v_amp*Complex.exp (phase p)).re
  let warr : Fin P → ℝ := fun p => (w_amp*Complex.exp (phase p)).re
  (Matrix.of ![uarr, varr, warr]).transpose

/-- `buoy(r, t, phi_0, N, k, l, m, om, ...)`: position-stack buoyancy
evaluator, `np.real(b_amp*np.exp(phase))` per point. -/
noncomputable def buoy {P : ℕ} (r : Matrix (Fin P) (Fin 3) ℝ) (t : ℝ)
    (phi_0 : ℂ) (N k l m om U V W phase_0 : ℝ) : Fin P → ℝ :=
  let x : Fin P → ℝ := fun p => r p 0
  let y : Fin P → ℝ := fun p => r p 1
  let z : Fin P → ℝ := fun p => r p 2
  let b_amp := B_0 phi_0 m om N
  let phase : Fin P → ℂ := fun p =>
    wave_phase (x p) (y p) (z p) t k l m om U V W phase_0
  fun p => (b_amp*Complex.exp (phase p)).re

/-- `cgz(k, m, N, l=0., f=0.)`: vertical component of group velocity,
`num/den` with `num = -m*(N**2 - f**2)*(k**2 + l**2)` and
`den = (k**2 + l**2 + m**2)**1.5 * (f**2*m**2 + N**2*(k**2 + l**2))**0.5`. -/
noncomputable def cgz (k m N l f : ℝ) : ℝ :=
  let num := -m*(N^2 - f^2)*(k^2 + l^2)
  let den := (k^2 + l^2 + m^2) ^ (1.5:ℝ) * (f^2*m^2 + N^2*(k^2 + l^2)) ^ (0.5:ℝ)
  num/den

/-- `phip(k, m, l=0.)`: angle between the wavevector and the horizontal,
`np.arcsin(np.sqrt(m**2/(k**2 + l**2 + m**2)))`. -/
noncomputable def phip (k m l : ℝ) : ℝ :=
  Real.arcsin (Real.sqrt (m^2/(k^2 + l^2 + m^2)))

/-- `lambdap(k, l)`: azimuthal angle of the wavevector, `np.arctan2(l, k)`,
embedded as the argument of the complex number `k + i*l`. -/
noncomputable def lambdap (k l : ℝ) : ℝ :=
  Complex.arg ((k:ℂ) + (l:ℂ)*Complex.I)

/-- `cgvec(k, l, m, N, f)`: group velocity vector `mag*dir` with
`mag = cos(phi)*sin(phi)*(N**2 - f**2)/(om*np.sqrt(k**2 + l**2 + m**2))` and
`dir = [sin(phi)*cos(lamb), sin(phi)*sin(lamb), -cos(phi)]`. -/
noncomputable def cgvec (k l m N f : ℝ) : Fin 3 → ℝ :=
  let om := omega N k m l f
  let ph := phip k m l
  let lamb := lambdap k l
  let mag := Real.cos ph*Real.sin ph*(N^2 - f^2)/(om*Real.sqrt (k^2 + l^2 + m^2))
  let dir : Fin 3 → ℝ :=
    ![Real.sin ph*Real.cos lamb, Real.sin ph*Real.sin lamb, -Real.cos ph]
  fun i => mag*dir i

/-- `alpha(k, m, l=0.)`: aspect ratio, `np.sqrt((k**2 + l**2)/m**2)`. -/
noncomputable def alpha (k m l : ℝ) : ℝ :=
  Real.sqrt ((k^2 + l^2)/m^2)

/-- `Edens(w_0, k, m, l=0., rho_0=1025.)`: energy density
`0.5*rho_0*(w_0/np.cos(phip(k, m, l)))**2`. -/
noncomputable def Edens (w_0 k m l rho_0 : ℝ) : ℝ :=
  0.5*rho_0*(w_0/Real.cos (phip k m l))^2

/-- `Efluxz(w_0, k, m, N, l=0., f=0., rho_0=1025.)`: vertical energy flux
`Edens(w_0, k, m, l, rho_0)*cgz(k, m, N, l, f)`. -/
noncomputable def Efluxz (w_0 k m N l f rho_0 : ℝ) : ℝ :=
  Edens w_0 k m l rho_0*cgz k m N l f

/-- `Mfluxz(phi_0, k, l, m, om, N, f=0., rho_0=1025.)`: absolute vertical
flux of horizontal momentum. -/
noncomputable def Mfluxz (phi_0 : ℂ) (k l m om N f rho_0 : ℝ) : ℝ :=
  let u_amp := Complex.abs (U_0 phi_0 k l om f)
  let v_amp := Complex.abs (V_0 phi_0 k l om f)
  let w_amp := Complex.abs (W_0 phi_0 m om N)
  0.5*rho_0*Real.sqrt ((u_amp*w_amp)^2 + (v_amp*w_amp)^2)

/-! ## Theorems settling the claims -/

/-- C1: for every real N, k, m, l, f, `omega N k m l f` returns
sqrt((f^2*m^2 + N^2*(k^2+l^2)) / (k^2+l^2+m^2)), and the value is the
nonnegative square-root branch. -/
theorem omega_formula_nonneg_branch (N k m l f : ℝ) :
    omega N k m l f =
      Real.sqrt ((f^2*m^2 + N^2*(k^2 + l^2))/(k^2 + l^2 + m^2)) ∧
    0 ≤ omega N k m l f :=
  ⟨rfl, Real.sqrt_nonneg _⟩

/-- C3: for every real N, k, m, l, f with (k, l, m) not all zero,
`omega N k m l f` is nonnegative. -/
theorem omega_nonneg (N k m l f : ℝ) (h : ¬(k = 0 ∧ l = 0 ∧ m = 0)) :
    0 ≤ omega N k m l f :=
  Real.sqrt_nonneg _

/-- Witness for C3 at N = 1, k = 1, l = 0, m = 0, f = 0. -/
theorem omega_nonneg_witness :
    ¬((1:ℝ) = 0 ∧ (0:ℝ) = 0 ∧ (0:ℝ) = 0) ∧ 0 ≤ omega 1 1 0 0 0 :=
  ⟨by norm_num, omega_nonneg 1 1 0 0 0 (by norm_num)⟩

/-- C8: at N = 1, k = 0, m = 0, l = 0, f = 0 both the numerator and the
denominator of the dispersion relation vanish, so the float computation is
sqrt(0/0) = NaN, returned as data (`none` in the NaN-tracking embedding)
rather than raised as an error. -/
theorem omega_singular_input_nan :
    (0:ℝ)^2*(0:ℝ)^2 + (1:ℝ)^2*((0:ℝ)^2 + (0:ℝ)^2) = 0 ∧
    (0:ℝ)^2 + (0:ℝ)^2 + (0:ℝ)^2 = 0 ∧
    omegaNaN 1 0 0 0 0 = none := by
  refine ⟨by norm_num, by norm_num, ?_⟩
  norm_num [omegaNaN]

/-- C4: for every complex phi_0 and real k, l, om with f = 0 and om nonzero,
`U_0` reduces to (k/om)*phi_0 and `V_0` reduces to (l/om)*phi_0. -/
theorem U_0_V_0_no_rotation (phi_0 : ℂ) (k l om : ℝ) (h : om ≠ 0) :
    U_0 phi_0 k l om 0 = ((k:ℂ)/(om:ℂ))*phi_0 ∧
    V_0 phi_0 k l om 0 = ((l:ℂ)/(om:ℂ))*phi_0 := by
  have hom : (om:ℂ) ≠ 0 := Complex.ofReal_ne_zero.mpr h
  constructor
  · unfold U_0
    push_cast
    field_simp
    ring
  · unfold V_0
    push_cast
    field_simp
    ring

/-- Witness for C4 at phi_0 = 1, k = 1, l = 1, om = 1. -/
theorem U_0_V_0_no_rotation_witness :
    (1:ℝ) ≠ 0 ∧
    (U_0 1 1 1 1 0 = (((1:ℝ):ℂ)/((1:ℝ):ℂ))*1 ∧
     V_0 1 1 1 1 0 = (((1:ℝ):ℂ)/((1:ℝ):ℂ))*1) :=
  ⟨one_ne_zero, U_0_V_0_no_rotation 1 1 1 1 one_ne_zero⟩

/-- C5: for every common choice of arguments, `rho` equals
`-b * rho_0 / g` pointwise, with `b` evaluated at the same arguments. -/
theorem rho_eq_neg_b_rho0_div_g (x y z t : ℝ) (phi_0 : ℂ)
    (k l m om N U V W phase_0 g rho_0 : ℝ) :
    rho x y z t phi_0 k l m om N U V W phase_0 g rho_0 =
      -b x y z t phi_0 k l m om N U V W phase_0*rho_0/g := by
  have key : RHO_0 phi_0 m om N g rho_0*
      Complex.exp (wave_phase x y z t k l m om U V W phase_0) =
      (B_0 phi_0 m om N*
        Complex.exp (wave_phase x y z t k l m om U V W phase_0))*
        ((-(rho_0/g) : ℝ) : ℂ) := by
    unfold RHO_0
    push_cast
    ring
  unfold rho b
  rw [key, Complex.mul_re]
  simp only [Complex.ofReal_re, Complex.ofReal_im, mul_zero, sub_zero]
  ring

/-- C10: for all real arguments, `wave_phase` is purely imaginary, so
`exp (wave_phase ...)` has modulus 1 and the pressure field `phi` is
bounded by the modulus of its amplitude phi_0. -/
theorem wave_phase_imaginary_phi_bounded
    (x y z t k l m om U V W phase_0 : ℝ) (phi_0 : ℂ) :
    (wave_phase x y z t k l m om U V W phase_0).re = 0 ∧
    Complex.abs (Complex.exp (wave_phase x y z t k l m om U V W phase_0)) = 1 ∧
    |phi x y z t phi_0 k l m om U V W phase_0| ≤ Complex.abs phi_0 := by
  have hre : (wave_phase x y z t k l m om U V W phase_0).re = 0 := by
    simp [wave_phase]
  have habs :
      Complex.abs (Complex.exp (wave_phase x y z t k l m om U V W phase_0)) = 1 := by
    rw [Complex.abs_exp, hre, Real.exp_zero]
  refine ⟨hre, habs, ?_⟩
  unfold phi
  calc |(phi_0*Complex.exp (wave_phase x y z t k l m om U V W phase_0)).re|
      ≤ Complex.abs (phi_0*Complex.exp (wave_phase x y z t k l m om U V W phase_0)) :=
        Complex.abs_re_le_abs _
    _ = Complex.abs phi_0*
          Complex.abs (Complex.exp (wave_phase x y z t k l m om U V W phase_0)) :=
        map_mul _ _ _
    _ = Complex.abs phi_0 := by rw [habs, mul_one]

/-- C2 counterexample: at N = -1, k = 1, m = 0 (f = 0, l = 0, (k,m) not both
zero) `omega` returns 1, not N*|k|/sqrt(k^2+m^2) = -1: the claimed identity
fails for negative N. -/
theorem omega_no_rotation_counterexample :
    ¬(omega (-1) 1 0 0 0 = (-1)*|(1:ℝ)|/Real.sqrt (1^2 + 0^2)) := by
  unfold omega
  norm_num [Real.sqrt_one]

/-- C2 (amended): for all real N, k, m with f = 0 and l = 0, `omega N k m 0 0`
equals |N| * |k|/sqrt(k^2+m^2); and at N = 0.01, k = 0.001, l = 0, m = -0.002,
f = 0 it equals sqrt(N^2*k^2/(k^2+m^2)) exactly. -/
theorem omega_no_rotation :
    (∀ N k m : ℝ, (k ≠ 0 ∨ m ≠ 0) →
      omega N k m 0 0 = |N| * |k|/Real.sqrt (k^2 + m^2)) ∧
    omega 0.01 0.001 (-0.002) 0 0 =
      Real.sqrt ((0.01:ℝ)^2*(0.001:ℝ)^2/((0.001:ℝ)^2 + (-0.002:ℝ)^2)) := by
  constructor
  · intro N k m _
    have harg : (0:ℝ)^2*m^2 + N^2*(k^2 + (0:ℝ)^2) = (N*k)^2 := by ring
    have hden : k^2 + (0:ℝ)^2 + m^2 = k^2 + m^2 := by ring
    unfold omega
    rw [harg, hden, Real.sqrt_div (sq_nonneg (N*k)), Real.sqrt_sq_eq_abs,
      abs_mul]
  · unfold omega
    congr 1
    norm_num

/-- Witness for C2 at N = 1, k = 1, m = 0. -/
theorem omega_no_rotation_witness :
    ((1:ℝ) ≠ 0 ∨ (0:ℝ) ≠ 0) ∧
    omega 1 1 0 0 0 = |(1:ℝ)| * |(1:ℝ)|/Real.sqrt (1^2 + 0^2) :=
  ⟨Or.inl one_ne_zero, omega_no_rotation.1 1 1 0 (Or.inl one_ne_zero)⟩

/-- C6: for every real k, l, m not all zero, `phip k m l` equals
arcsin(sqrt(m^2/(k^2+l^2+m^2))) and lies in [0, pi/2]; and
`phip 1 1 0` equals pi/4. -/
theorem phip_formula_range_pi_div_four :
    (∀ k l m : ℝ, ¬(k = 0 ∧ l = 0 ∧ m = 0) →
      phip k m l = Real.arcsin (Real.sqrt (m^2/(k^2 + l^2 + m^2))) ∧
      0 ≤ phip k m l ∧ phip k m l ≤ π/2) ∧
    phip 1 1 0 = π/4 := by
  constructor
  · intro k l m _
    refine ⟨rfl, ?_, Real.arcsin_le_pi_div_two _⟩
    exact Real.arcsin_nonneg.mpr (Real.sqrt_nonneg _)
  · have hs2 : Real.sqrt 2 ≠ 0 := by positivity
    have hhalf : Real.sqrt ((1:ℝ)/2) = Real.sqrt 2/2 := by
      rw [Real.sqrt_div (by norm_num : (0:ℝ) ≤ 1) 2, Real.sqrt_one,
        div_eq_div_iff hs2 two_ne_zero, one_mul,
        Real.mul_self_sqrt (by norm_num : (0:ℝ) ≤ 2)]
    unfold phip
    rw [show (1:ℝ)^2/((1:ℝ)^2 + (0:ℝ)^2 + (1:ℝ)^2) = 1/2 by norm_num,
      hhalf, ← Real.sin_pi_div_four]
    exact Real.arcsin_sin (by linarith [Real.pi_pos]) (by linarith [Real.pi_pos])

/-- Witness for C6 at k = 1, l = 0, m = 1. -/
theorem phip_formula_range_witness :
    ¬((1:ℝ) = 0 ∧ (0:ℝ) = 0 ∧ (1:ℝ) = 0) ∧
    (phip 1 1 0 = Real.arcsin (Real.sqrt ((1:ℝ)^2/((1:ℝ)^2 + (0:ℝ)^2 + (1:ℝ)^2))) ∧
     0 ≤ phip 1 1 0 ∧ phip 1 1 0 ≤ π/2) :=
  ⟨by norm_num, phip_formula_range_pi_div_four.1 1 0 1 (by norm_num)⟩

/-- C7: for a position stack r of shape (P, 3) and scalar t, `wave_vel`
returns a (P, 3) array whose row p is (u, v, w) evaluated at the point
(r p 0, r p 1, r p 2, t) with the same wave parameters: u and v receive the
same f and w receives the same N. -/
theorem wave_vel_rows (P : ℕ) (r : Matrix (Fin P) (Fin 3) ℝ) (t : ℝ)
    (phi_0 : ℂ) (N f k l m om U V W phase_0 : ℝ) (p : Fin P) :
    wave_vel r t phi_0 N f k l m om U V W phase_0 p 0 =
      u (r p 0) (r p 1) (r p 2) t phi_0 k l m om f U V W phase_0 ∧
    wave_vel r t phi_0 N f k l m om U V W phase_0 p 1 =
      v (r p 0) (r p 1) (r p 2) t phi_0 k l m om f U V W phase_0 ∧
    wave_vel r t phi_0 N f k l m om U V W phase_0 p 2 =
      w (r p 0) (r p 1) (r p 2) t phi_0 k l m om N U V W phase_0 := by
  refine ⟨?_, ?_, ?_⟩ <;>
    simp [wave_vel, u, v, w, Matrix.transpose_apply, Matrix.cons_val_zero,
      Matrix.cons_val_one, Matrix.cons_val_two, Matrix.head_cons,
      Matrix.vecTail, Matrix.vecHead]

/-- C9: for every real k, l, m, N, f with m nonnegative, (k, l) not both
zero and the denominator of `cgz` nonzero, the third (z) component of
`cgvec k l m N f` equals `cgz k m N l f`: the two computations of the
vertical group velocity agree. -/
theorem cgvec_z_eq_cgz (k l m N f : ℝ) (hm : 0 ≤ m) (hkl : k ≠ 0 ∨ l ≠ 0)
    (hden : (k^2 + l^2 + m^2) ^ (1.5:ℝ) *
      (f^2*m^2 + N^2*(k^2 + l^2)) ^ (0.5:ℝ) ≠ 0) :
    cgvec k l m N f 2 = cgz k m N l f := by
  have hs : 0 < k^2 + l^2 := by
    rcases hkl with h | h
    · nlinarith [pow_two_pos_of_ne_zero h, sq_nonneg l]
    · nlinarith [pow_two_pos_of_ne_zero h, sq_nonneg k]
  have hK2 : 0 < k^2 + l^2 + m^2 := by nlinarith [sq_nonneg m]
  have hA0 : 0 ≤ f^2*m^2 + N^2*(k^2 + l^2) := by positivity
  have hA : 0 < f^2*m^2 + N^2*(k^2 + l^2) := by
    rcases hA0.lt_or_eq with h | h
    · exact h
    · exact absurd
        (by rw [← h, Real.zero_rpow (by norm_num : (0.5:ℝ) ≠ 0), mul_zero]) hden
  have hsqK : 0 < Real.sqrt (k^2 + l^2 + m^2) := Real.sqrt_pos.mpr hK2
  have hsqA : 0 < Real.sqrt (f^2*m^2 + N^2*(k^2 + l^2)) := Real.sqrt_pos.mpr hA
  have hle : m^2/(k^2 + l^2 + m^2) ≤ 1 := (div_le_one hK2).mpr (by nlinarith)
  have hsin : Real.sin (phip k m l) = m/Real.sqrt (k^2 + l^2 + m^2) := by
    unfold phip
    rw [Real.sin_arcsin (le_trans (by norm_num : (-1:ℝ) ≤ 0) (Real.sqrt_nonneg _))
        (Real.sqrt_le_one.mpr hle),
      Real.sqrt_div (sq_nonneg m), Real.sqrt_sq hm]
  have hcos2 : Real.cos (phip k m l)^2 = (k^2 + l^2)/(k^2 + l^2 + m^2) := by
    have hx2 : Real.sqrt (m^2/(k^2 + l^2 + m^2))^2 = m^2/(k^2 + l^2 + m^2) :=
      Real.sq_sqrt (by positivity)
    unfold phip
    rw [Real.cos_arcsin, hx2, Real.sq_sqrt (by linarith)]
    field_simp
  have hom : omega N k m l f =
      Real.sqrt (f^2*m^2 + N^2*(k^2 + l^2))/Real.sqrt (k^2 + l^2 + m^2) := by
    unfold omega
    rw [Real.sqrt_div hA0]
  have hK15 : (k^2 + l^2 + m^2) ^ (1.5:ℝ) =
      (k^2 + l^2 + m^2)*Real.sqrt (k^2 + l^2 + m^2) := by
    rw [show (1.5:ℝ) = 1 + 1/2 by norm_num, Real.rpow_add hK2, Real.rpow_one,
      ← Real.sqrt_eq_rpow]
  have hA05 : (f^2*m^2 + N^2*(k^2 + l^2)) ^ (0.5:ℝ) =
      Real.sqrt (f^2*m^2 + N^2*(k^2 + l^2)) := by
    rw [show (0.5:ℝ) = 1/2 by norm_num, ← Real.sqrt_eq_rpow]
  have hsplit : ∀ a s c d : ℝ, a*s*c/d*(-a) = -(a^2*s*c/d) := by
    intro a s c d
    ring
  simp only [cgvec, cgz, Matrix.cons_val_two, Matrix.tail_cons, Matrix.head_cons]
  rw [hsplit, hcos2, hsin, hom, hK15, hA05]
  field_simp
  ring

/-- Witness for C9 at k = 1, l = 0, m = 0, N = 1, f = 0. -/
theorem cgvec_z_eq_cgz_witness :
    (0:ℝ) ≤ 0 ∧ ((1:ℝ) ≠ 0 ∨ (0:ℝ) ≠ 0) ∧
    ((1:ℝ)^2 + (0:ℝ)^2 + (0:ℝ)^2) ^ (1.5:ℝ) *
      ((0:ℝ)^2*(0:ℝ)^2 + (1:ℝ)^2*((1:ℝ)^2 + (0:ℝ)^2)) ^ (0.5:ℝ) ≠ 0 ∧
    cgvec 1 0 0 1 0 2 = cgz 1 0 1 0 0 := by
  have hden : ((1:ℝ)^2 + (0:ℝ)^2 + (0:ℝ)^2) ^ (1.5:ℝ) *
      ((0:ℝ)^2*(0:ℝ)^2 + (1:ℝ)^2*((1:ℝ)^2 + (0:ℝ)^2)) ^ (0.5:ℝ) ≠ 0 := by
    norm_num [Real.one_rpow]
  exact ⟨le_refl 0, Or.inl one_ne_zero, hden,
    cgvec_z_eq_cgz 1 0 0 1 0 (le_refl 0) (Or.inl one_ne_zero) hden⟩

end OceanTools.GravityWaves
